import Mathlib

/-!
Verification development for the invoice-reconciliation core of the
PythonIMS_InvoiceToJson repository.

The definitions below are a shallow embedding of the matching and caching
code in `src/fuzzy_matcher.py` and `src/menu_cache.py`:

* Python strings are Lean `String` / `List Char`;
* Python floats (similarity scores, timestamps) are rationals `ℚ`;
* Python `None` is `Option.none`; values that may be `None` get `Option` types;
* Python exceptions are modelled with `Except String`;
* wall-clock reads (`time.time()`) become an explicit `now : ℚ` argument;
* the RapidFuzz scorers are opaque parameters (a `ScorerFamily`); the
  semantics of `rapidfuzz.process.extract` (keep candidates whose score is at
  least the cutoff, order by non-increasing score with ties in input order,
  return at most `limit`) is embedded as `processExtract`.
-/

/-! ## Text normalization: `preprocess_text` (src/fuzzy_matcher.py:75-103) -/

/-- Characters treated as whitespace by Python's `\s`, `str.split()` and
`str.strip()` (ASCII fragment). -/
def isPySpace (c : Char) : Bool :=
  c == ' ' || c == '\t' || c == '\n' || c == '\r' || c == '\x0b' || c == '\x0c'

/-- Characters kept by the regex substitution `re.sub(r'[^A-Z0-9\s]', ' ', text)`:
uppercase ASCII letters, ASCII digits, and whitespace. -/
def isKeptChar (c : Char) : Bool :=
  (decide (65 ≤ c.toNat) && decide (c.toNat ≤ 90)) ||
  (decide (48 ≤ c.toNat) && decide (c.toNat ≤ 57)) ||
  isPySpace c

/-- Python `str.upper()` restricted to ASCII: lowercase letters map to the
corresponding uppercase letters, everything else is unchanged. -/
def pyUpperChar (c : Char) : Char :=
  if 97 ≤ c.toNat ∧ c.toNat ≤ 122 then Char.ofNat (c.toNat - 32) else c

/-- One character of the substitution `re.sub(r'[^A-Z0-9\s]', ' ', text)`. -/
def subChar (c : Char) : Char :=
  if isKeptChar c then c else ' '

/-- Python `str.split()` (no separator argument): split on runs of whitespace,
discarding empty fields.  `acc` holds the characters of the current word in
reverse order. -/
def pySplitAux : List Char → List Char → List (List Char)
  | [], acc => if acc.isEmpty then [] else [acc.reverse]
  | c :: cs, acc =>
    if isPySpace c then
      if acc.isEmpty then pySplitAux cs [] else acc.reverse :: pySplitAux cs []
    else
      pySplitAux cs (c :: acc)

def pySplit (l : List Char) : List (List Char) :=
  pySplitAux l []

/-- Python `' '.join(words)`. -/
def pyJoinWords : List (List Char) → List Char
  | [] => []
  | [w] => w
  | w :: ws => w ++ ' ' :: pyJoinWords ws

/-- The character pipeline of `preprocess_text`: uppercase, replace
non-kept characters by spaces, then `' '.join(text.split())`. -/
def preprocessList (l : List Char) : List Char :=
  pyJoinWords (pySplit ((l.map pyUpperChar).map subChar))

/-- `preprocess_text` (src/fuzzy_matcher.py:75-103).  The guard models
Python's `if not text: return ""`. -/
def preprocess_text (s : String) : String :=
  if s = "" then "" else ⟨preprocessList s.data⟩

/-! ## Python `str.strip()` -/

def pyStripList (l : List Char) : List Char :=
  ((l.dropWhile isPySpace).reverse.dropWhile isPySpace).reverse

def pyStrip (s : String) : String :=
  ⟨pyStripList s.data⟩

/-! ## Python `round(x, 2)` on scores -/

/-- Round-half-to-even on rationals (the rounding mode of Python's `round`). -/
def roundHalfEven (q : ℚ) : ℤ :=
  if q - ⌊q⌋ < 1/2 then ⌊q⌋
  else if 1/2 < q - ⌊q⌋ then ⌊q⌋ + 1
  else if ⌊q⌋ % 2 = 0 then ⌊q⌋ else ⌊q⌋ + 1

/-- Python `round(q, 2)`. -/
def pyRound2 (q : ℚ) : ℚ :=
  (roundHalfEven (q * 100) : ℚ) / 100

/-! ## Candidate index and matcher state (`FuzzyMatcher`, src/fuzzy_matcher.py:106-178) -/

/-- One row of the `menu_items` input:
`(desca, mcode, menucode, baseunit, confactor, altunit, vat)`.
Every component may be `NULL` in the database, hence the `Option`s. -/
structure MenuTuple where
  desca : Option String
  mcode : Option String
  menucode : Option String
  baseunit : Option String
  confactor : Option ℚ
  altunit : Option String
  vat : Option String
deriving DecidableEq

/-- Python truthiness of an optional string: `None` and `""` are falsy. -/
def pyTruthyStr : Option String → Bool
  | none => false
  | some s => !(s == "")

/-- One element of `processed_items` in `load_menu_items`
(src/fuzzy_matcher.py:140-154). -/
structure ProcessedItem where
  original_desca : String
  preprocessed_desca : String
  mcode : Option String
  menucode : Option String
  baseunit : Option String
  confactor : Option ℚ
  altunit : Option String
  vat : Option String
deriving DecidableEq

def defaultProcessedItem : ProcessedItem :=
  ⟨"", "", none, none, none, none, none, none⟩

def processItem (t : MenuTuple) : ProcessedItem :=
  { original_desca := t.desca.getD ""
    preprocessed_desca := preprocess_text (t.desca.getD "")
    mcode := t.mcode
    menucode := t.menucode
    baseunit := t.baseunit
    confactor := t.confactor
    altunit := t.altunit
    vat := t.vat }

/-- The cached candidate index (`self._cache`).  The Python code stores
parallel lists (`preprocessed_list`, `original_list`, `mcode_list`, ...)
obtained by mapping over `processed_items`; we store the record list and
derive the parallel lists from it. -/
structure MatcherCache where
  items : List ProcessedItem
deriving DecidableEq

def MatcherCache.preprocessed_list (c : MatcherCache) : List String :=
  c.items.map (fun i => i.preprocessed_desca)

def MatcherCache.item_count (c : MatcherCache) : ℕ :=
  c.items.length

/-- The matcher state: `self._cache`, `self._cache_timestamp`, `self._cache_ttl`. -/
structure FuzzyMatcher where
  cache : Option MatcherCache
  cache_timestamp : ℚ
  cache_ttl : ℚ
deriving DecidableEq

/-- `FuzzyMatcher.__init__` (src/fuzzy_matcher.py:117-127). -/
def FuzzyMatcher.init (cache_ttl : ℚ) : FuzzyMatcher :=
  { cache := none, cache_timestamp := 0, cache_ttl := cache_ttl }

/-- `FuzzyMatcher.load_menu_items` (src/fuzzy_matcher.py:129-172): keep the
rows with truthy `desca` (`if item[0]:`), preprocess each, time-stamp the
cache. -/
def FuzzyMatcher.load_menu_items (m : FuzzyMatcher) (menu_items : List MenuTuple)
    (now : ℚ) : FuzzyMatcher :=
  { m with
    cache := some ⟨(menu_items.filter (fun t => pyTruthyStr t.desca)).map processItem⟩
    cache_timestamp := now }

/-- `FuzzyMatcher.is_cache_valid` (src/fuzzy_matcher.py:174-178). -/
def FuzzyMatcher.is_cache_valid (m : FuzzyMatcher) (now : ℚ) : Bool :=
  match m.cache with
  | none => false
  | some _ => decide (now - m.cache_timestamp < m.cache_ttl)

/-! ## Scorers and `rapidfuzz.process.extract` -/

/-- The five RapidFuzz scorers selectable in `match_single`
(src/fuzzy_matcher.py:234-240), kept opaque.  Field correspondence:
`token_set` is `fuzz.token_set_ratio`, `token_sort` is `fuzz.token_sort_ratio`,
`weighted` is `fuzz.WRatio`, `simple` is `fuzz.ratio` and `substring` is
`fuzz.partial_ratio`. -/
structure ScorerFamily where
  token_set : String → String → ℚ
  token_sort : String → String → ℚ
  weighted : String → String → ℚ
  simple : String → String → ℚ
  substring : String → String → ℚ

/-- `SCORERS.get(scorer_name, fuzz.token_set_ratio)` (src/fuzzy_matcher.py:242):
unknown names fall back to the token-set scorer. -/
def ScorerFamily.get (f : ScorerFamily) (scorer_name : String) : String → String → ℚ :=
  if scorer_name = "token_set_ratio" then f.token_set
  else if scorer_name = "token_sort_ratio" then f.token_sort
  else if scorer_name = "WRatio" then f.weighted
  else if scorer_name = "ratio" then f.simple
  else if scorer_name = "partial_ratio" then f.substring
  else f.token_set

/-- One scored candidate as produced by `rapidfuzz.process.extract`:
a `(match_string, score, index)` triple. -/
structure ScoredChoice where
  choice : String
  score : ℚ
  index : ℕ
deriving DecidableEq

/-- Score every choice against the query, keeping its position (the
enumeration RapidFuzz performs internally). -/
def scoreChoicesFrom (scorer : String → String → ℚ) (query : String) :
    ℕ → List String → List ScoredChoice
  | _, [] => []
  | i, c :: cs => ⟨c, scorer query c, i⟩ :: scoreChoicesFrom scorer query (i + 1) cs

/-- Insert into a list sorted by strictly decreasing-or-stable score: the new
element goes after all already-present elements with an equal or higher
score (stability: earlier-indexed elements stay first on ties). -/
def insertDesc (x : ScoredChoice) : List ScoredChoice → List ScoredChoice
  | [] => [x]
  | y :: ys => if y.score < x.score then x :: y :: ys else y :: insertDesc x ys

/-- Stable sort by non-increasing score (insertion sort, processing the
candidates in index order). -/
def sortDesc (l : List ScoredChoice) : List ScoredChoice :=
  l.foldl (fun acc x => insertDesc x acc) []

/-- Semantics of `rapidfuzz.process.extract(query, choices, scorer=...,
limit=..., score_cutoff=...)` (called at src/fuzzy_matcher.py:253-259):
every choice is scored; candidates scoring below `score_cutoff` are dropped;
the rest are ordered by non-increasing score, ties in input order; at most
`limit` are returned. -/
def processExtract (scorer : String → String → ℚ) (query : String)
    (choices : List String) (limit : ℕ) (score_cutoff : ℚ) : List ScoredChoice :=
  (sortDesc ((scoreChoicesFrom scorer query 0 choices).filter
    (fun s => decide (score_cutoff ≤ s.score)))).take limit

/-! ## `match_single` / `match_batch` (src/fuzzy_matcher.py:180-350) -/

/-- One formatted match dictionary (src/fuzzy_matcher.py:281-291).
`confactor = none` models the Python placeholder `''` used when the
conversion factor is `NULL`; `score` is the rounded score `round(score, 2)`. -/
structure MatchResult where
  desca : String
  mcode : Option String
  menucode : Option String
  baseunit : String
  confactor : Option ℚ
  altunit : String
  vat : String
  score : ℚ
  rank : ℕ
deriving DecidableEq

/-- Build one result dictionary from a scored candidate
(src/fuzzy_matcher.py:266-291). -/
def formatResult (c : MatcherCache) (rank : ℕ) (s : ScoredChoice) : MatchResult :=
  let item := c.items.getD s.index defaultProcessedItem
  { desca := item.original_desca
    mcode := item.mcode
    menucode := item.menucode
    baseunit := item.baseunit.getD ""
    confactor := item.confactor
    altunit := item.altunit.getD ""
    vat := item.vat.getD ""
    score := pyRound2 s.score
    rank := rank }

/-- The `for rank, ... in enumerate(matches, start=1)` loop
(src/fuzzy_matcher.py:265-291). -/
def buildResults (c : MatcherCache) : ℕ → List ScoredChoice → List MatchResult
  | _, [] => []
  | rank, s :: ss => formatResult c rank s :: buildResults c (rank + 1) ss

/-- The value returned by `match_single`: the early empty-query return is the
bare list `[]` (src/fuzzy_matcher.py:229), every other success is the dict
`{'fuzzy_matches': ..., 'best_match': ...}` (src/fuzzy_matcher.py:298-301). -/
inductive MatchReturn where
  | listReturn (l : List MatchResult)
  | dictReturn (fuzzy_matches : List MatchResult) (best_match : Option MatchResult)
deriving DecidableEq

/-- The list of candidates carried by a `match_single` return value. -/
def matchReturnList : MatchReturn → List MatchResult
  | .listReturn l => l
  | .dictReturn fms _ => fms

def cacheInvalidMsg : String :=
  "Cache is invalid or expired. Call load_menu_items() first."

/-- `FuzzyMatcher.match_single` (src/fuzzy_matcher.py:180-301).  Raising
`ValueError` is the `.error` case; the empty-query guard
(`if not query or not query.strip()`) returns the bare `[]`. -/
def FuzzyMatcher.match_single (f : ScorerFamily) (m : FuzzyMatcher) (now : ℚ)
    (query : String) (limit : ℕ) (score_cutoff : ℚ) (scorer_name : String) :
    Except String MatchReturn :=
  match m.cache with
  | none => .error cacheInvalidMsg
  | some c =>
    if now - m.cache_timestamp < m.cache_ttl then
      if query = "" ∨ pyStrip query = "" then
        .ok (.listReturn [])
      else
        let results := buildResults c 1
          (processExtract (f.get scorer_name) (preprocess_text (pyStrip query))
            c.preprocessed_list limit score_cutoff)
        .ok (.dictReturn results results.head?)
    else .error cacheInvalidMsg

/-- `FuzzyMatcher.match_batch` (src/fuzzy_matcher.py:303-350); the result
dict is modelled as an association list in query order. -/
def FuzzyMatcher.match_batch (f : ScorerFamily) (m : FuzzyMatcher) (now : ℚ)
    (queries : List String) (limit : ℕ) (score_cutoff : ℚ) (scorer_name : String) :
    Except String (List (String × MatchReturn)) :=
  match m.cache with
  | none => .error cacheInvalidMsg
  | some _ =>
    if now - m.cache_timestamp < m.cache_ttl then
      queries.mapM (fun q =>
        if q ≠ "" ∧ pyStrip q ≠ "" then
          (m.match_single f now q limit score_cutoff scorer_name).map (fun r => (q, r))
        else .ok (q, .listReturn []))
    else .error cacheInvalidMsg

/-! ## Ordering properties of `processExtract` -/

/-- The strict ranking order on scored candidates: higher score first, equal
scores resolved by catalog (input) position. -/
def rankRel (a b : ScoredChoice) : Prop :=
  b.score < a.score ∨ (a.score = b.score ∧ a.index < b.index)

/-- Postcondition of `match_single` stated by claim C1: the returned list has
at most `limit` elements, element `i` carries rank `i + 1`, the (rounded)
scores are non-increasing, and the list is the formatting of a sequence of
scored catalog candidates that all reach `score_cutoff` and are strictly
ordered by score with ties broken by catalog position. -/
def MatchSinglePost (f : ScorerFamily) (m : FuzzyMatcher) (query : String)
    (limit : ℕ) (score_cutoff : ℚ) (scorer_name : String) (ret : MatchReturn) : Prop :=
  (matchReturnList ret).length ≤ limit ∧
  (∀ (i : ℕ) (h : i < (matchReturnList ret).length),
    ((matchReturnList ret).get ⟨i, h⟩).rank = i + 1) ∧
  (matchReturnList ret).Pairwise (fun a b => b.score ≤ a.score) ∧
  ∃ cch ms, m.cache = some cch ∧
    matchReturnList ret = buildResults cch 1 ms ∧
    ms.Pairwise rankRel ∧
    ∀ s ∈ ms, score_cutoff ≤ s.score ∧ s.index < cch.preprocessed_list.length ∧
      cch.preprocessed_list.get? s.index = some s.choice ∧
      s.score = (f.get scorer_name) (preprocess_text (pyStrip query)) s.choice

/-- Postcondition of `load_menu_items` stated by claim C3: the built index
retains exactly the rows whose description is present and non-empty, and any
candidate a later `match_single` returns originates from such a row. -/
def LoadPost (menu_items : List MenuTuple) (m : FuzzyMatcher) (now : ℚ) : Prop :=
  ∃ cch, (m.load_menu_items menu_items now).cache = some cch ∧
    cch.item_count = menu_items.countP (fun t => decide (t.desca ≠ none ∧ t.desca ≠ some "")) ∧
    ∀ (f : ScorerFamily) (now2 : ℚ) (q : String) (limit : ℕ) (score_cutoff : ℚ)
      (scorer_name : String) (ret : MatchReturn),
      (m.load_menu_items menu_items now).match_single f now2 q limit score_cutoff scorer_name
        = .ok ret →
      ∀ r ∈ matchReturnList ret,
        ∃ t ∈ menu_items, t.desca = some r.desca ∧ r.desca ≠ ""

/-! ## Concrete fixtures for witnesses and counterexamples -/

/-- A scorer family in which every scorer gives every pair the same score. -/
def constScorerFamily (q : ℚ) : ScorerFamily :=
  ⟨fun _ _ => q, fun _ _ => q, fun _ _ => q, fun _ _ => q, fun _ _ => q⟩

def sampleTuple1 : MenuTuple :=
  ⟨some "LACTOGEN PRO 1", some "ITM001", some "MENU001", some "Pcs", some 12,
    some "Case", some "1"⟩

def sampleTuple2 : MenuTuple :=
  ⟨some "NESCAFE CLASSIC", some "ITM003", some "MENU003", none, none, none, none⟩

/-- A row with an empty description: must be filtered out at load time. -/
def emptyDescTuple : MenuTuple := ⟨some "", some "ITM009", none, none, none, none, none⟩

/-- A row with a missing description: must be filtered out at load time. -/
def noneDescTuple : MenuTuple := ⟨none, some "ITM010", none, none, none, none, none⟩

def sampleCatalog : List MenuTuple :=
  [sampleTuple1, emptyDescTuple, sampleTuple2, noneDescTuple]

/-- A matcher loaded at time 0 with the sample catalog (two retained rows). -/
def sampleMatcher : FuzzyMatcher :=
  (FuzzyMatcher.init 3600).load_menu_items sampleCatalog 0

/-! ## Reconciliation orchestrator: `match_ocr_products` (src/fuzzy_matcher.py:374-617) -/

/-- Digits-only string-to-number parsing (ASCII). -/
def digitsToNat? (l : List Char) : Option ℕ :=
  if l = [] then none
  else l.foldl (fun acc c => acc.bind (fun n =>
    if c.isDigit then some (n * 10 + (c.toNat - 48)) else none)) (some 0)

/-- Python `int(s)` on a string: strip whitespace, optional sign, ASCII
digits; `none` models the `ValueError` on anything else. -/
def pyParseInt (s : String) : Option ℤ :=
  match pyStripList s.data with
  | '-' :: rest => (digitsToNat? rest).map (fun n => -(n : ℤ))
  | '+' :: rest => (digitsToNat? rest).map (fun n => (n : ℤ))
  | t => (digitsToNat? t).map (fun n => (n : ℤ))

/-- The `isVAT` computation (src/fuzzy_matcher.py:569-572 and 589-592):
`1 if str(int(db_vat)) == '1' else 0`, falling back on `ValueError` to
membership of the stripped string in `('1','Y','y','true','True')`. -/
def computeIsVat (db_vat : String) : ℕ :=
  match pyParseInt db_vat with
  | some n => if n = 1 then 1 else 0
  | none =>
    if pyStrip db_vat = "1" ∨ pyStrip db_vat = "Y" ∨ pyStrip db_vat = "y" ∨
        pyStrip db_vat = "true" ∨ pyStrip db_vat = "True" then 1 else 0

/-- A row returned by the `OCRMappedData` lookup query
(src/fuzzy_matcher.py:490-523): `(DbMcode, DbDesca, DbMenuCode, baseunit,
CONFACTOR, altunit, vat, menu_desca)`. -/
structure OverlayRow where
  dbMcode : String
  dbDesca : Option String
  dbMenuCode : Option String
  baseunit : Option String
  confactor : Option ℚ
  altunit : Option String
  vat : Option String
  menu_desca : Option String
deriving DecidableEq

/-- Outcome of one overlay lookup: a row, no row, or a raised database
exception (the `except` block at src/fuzzy_matcher.py:553-556). -/
inductive OverlayOutcome where
  | found (row : OverlayRow)
  | notFound
  | raised
deriving DecidableEq

/-- `mapped_match` built from an overlay row (src/fuzzy_matcher.py:527-548):
prefer `DbDesca`, fall back to `menuitem.desca`; `DbMenuCode` falls back to
`Dbmcode`; score 100, rank 1. -/
def buildMappedMatch (row : OverlayRow) : MatchResult :=
  let fallback_desca := if pyTruthyStr row.menu_desca then row.menu_desca.getD "" else ""
  { desca := if pyTruthyStr row.dbDesca then row.dbDesca.getD "" else fallback_desca
    mcode := some row.dbMcode
    menucode := some (if pyTruthyStr row.dbMenuCode then row.dbMenuCode.getD ""
      else row.dbMcode)
    baseunit := row.baseunit.getD ""
    confactor := row.confactor
    altunit := row.altunit.getD ""
    vat := row.vat.getD ""
    score := 100
    rank := 1 }

/-- One invoice line item.  `sku` is the description (`product.get('sku', '')`
treats a missing key as `""`); the remaining fields are the enrichment keys
the orchestrator may add (`none` = key absent from the dict).  Other
business fields of the Python dict are untouched by the orchestrator and
are not modelled. -/
structure Product where
  sku : Option String
  fuzzy_matches : Option (List MatchResult) := none
  best_match : Option (Option MatchResult) := none
  match_confidence : Option String := none
  mapped_nature : Option String := none
  menuitem_vat : Option String := none
  isVAT : Option ℕ := none
deriving DecidableEq

/-- The overlay-lookup phase (src/fuzzy_matcher.py:437-558): skipped unless a
connection and a non-empty supplier name are given; a raised exception is
caught and treated as a miss (`mapped_match = None`). -/
def overlayMappedMatch (connection : Option (String → String → OverlayOutcome))
    (supplier_name : String) (sku_query : String) : Option MatchResult :=
  match connection with
  | none => none
  | some lookup =>
    if supplier_name ≠ "" then
      match lookup sku_query supplier_name with
      | .found row => some (buildMappedMatch row)
      | .notFound => none
      | .raised => none
    else none

/-- The confidence classification of the fuzzy branch
(src/fuzzy_matcher.py:598-607): the tier is decided by the rounded score of
the top match, with inclusive lower bounds 85 / 70 / 60. -/
def classifyConfidence (fms : List MatchResult) : String :=
  match fms with
  | [] => "none"
  | m :: _ =>
    if 85 ≤ m.score then "high"
    else if 70 ≤ m.score then "medium"
    else if 60 ≤ m.score then "low"
    else "none"

/-- `menuitem_vat` set in the fuzzy branch (src/fuzzy_matcher.py:585-596). -/
def fuzzyVat : Option MatchResult → String
  | some b => b.vat
  | none => ""

/-- `isVAT` set in the fuzzy branch (src/fuzzy_matcher.py:585-596): parsed
from the best match when present, otherwise 0. -/
def fuzzyIsVat : Option MatchResult → ℕ
  | some b => computeIsVat b.vat
  | none => 0

/-- The per-product body of the `for product in ocr_products` loop
(src/fuzzy_matcher.py:424-615).  The `.error` results model uncaught
exceptions: a `ValueError` from `match_single`, or the `TypeError` Python
would raise indexing the bare list return with a string key.
`pyStrip (product.sku.getD "")` is the loop's `sku_query`. -/
def processProduct (f : ScorerFamily) (matcher : FuzzyMatcher) (now : ℚ)
    (connection : Option (String → String → OverlayOutcome)) (supplier_name : String)
    (top_k : ℕ) (score_cutoff : ℚ) (product : Product) : Except String Product :=
  if pyStrip (product.sku.getD "") = "" then
    .ok { product with
          fuzzy_matches := some []
          best_match := some none
          match_confidence := some "none"
          mapped_nature := some "Not Matched" }
  else
    match overlayMappedMatch connection supplier_name (pyStrip (product.sku.getD "")) with
    | some mm =>
      .ok { product with
            best_match := some (some mm)
            fuzzy_matches := some [mm]
            match_confidence := some "high"
            mapped_nature := some "Existing"
            menuitem_vat := some mm.vat
            isVAT := some (computeIsVat mm.vat) }
    | none =>
      match matcher.match_single f now (pyStrip (product.sku.getD ""))
          top_k score_cutoff "token_set_ratio" with
      | .error e => .error e
      | .ok (.listReturn _) => .error "TypeError: list indices must be integers"
      | .ok (.dictReturn fms bm) =>
        .ok { product with
              fuzzy_matches := some fms
              best_match := some bm
              menuitem_vat := some (fuzzyVat bm)
              isVAT := some (fuzzyIsVat bm)
              match_confidence := some (classifyConfidence fms)
              mapped_nature := some (if fms.isEmpty then "Not Matched" else "New Mapped") }

/-- The accumulation of `enhanced_products` over the loop; an uncaught
exception aborts the remaining items. -/
def matchProducts (f : ScorerFamily) (matcher : FuzzyMatcher) (now : ℚ)
    (connection : Option (String → String → OverlayOutcome)) (supplier_name : String)
    (top_k : ℕ) (score_cutoff : ℚ) : List Product → Except String (List Product)
  | [] => .ok []
  | p :: ps =>
    match processProduct f matcher now connection supplier_name top_k score_cutoff p with
    | .error e => .error e
    | .ok p2 =>
      match matchProducts f matcher now connection supplier_name top_k score_cutoff ps with
      | .error e => .error e
      | .ok l => .ok (p2 :: l)

/-- `match_ocr_products` (src/fuzzy_matcher.py:374-617): build a fresh
matcher with a 1-hour cache, load the catalog, then enhance every product. -/
def match_ocr_products (f : ScorerFamily) (ocr_products : List Product)
    (menu_items : List MenuTuple) (top_k : ℕ) (score_cutoff : ℚ)
    (connection : Option (String → String → OverlayOutcome)) (supplier_name : String)
    (now : ℚ) : Except String (List Product) :=
  matchProducts f ((FuzzyMatcher.init 3600).load_menu_items menu_items now) now
    connection supplier_name top_k score_cutoff ocr_products

/-- C5 witness data: a product whose description is whitespace only. -/
def blankProduct : Product :=
  ⟨some "   ", none, none, none, none, some "7", some 1⟩

def lactogenProduct : Product :=
  ⟨some "Lactogen", none, none, none, none, none, none⟩

/-! ## Catalog cache: `MenuItemCache` (src/menu_cache.py) -/

/-- `self._cache_data`: the dict `{'items': ..., 'count': ...}`. -/
structure MenuCacheData where
  items : List (Option String × String)
  count : ℕ
deriving DecidableEq

/-- The cache state: `_cache_data`, `_cache_timestamp`, `_ttl`, `_load_count`
(src/menu_cache.py:45-60).  The singleton pattern is not modelled: all
operations act on an explicit state value. -/
structure MenuItemCache where
  cache_data : Option MenuCacheData
  cache_timestamp : ℚ
  ttl : ℚ
  load_count : ℕ
deriving DecidableEq

def MenuItemCache.init (ttl : ℚ) : MenuItemCache :=
  ⟨none, 0, ttl, 0⟩

/-- `MenuItemCache.is_valid` (src/menu_cache.py:112-118). -/
def MenuItemCache.is_valid (c : MenuItemCache) (now : ℚ) : Bool :=
  match c.cache_data with
  | none => false
  | some _ => decide (now - c.cache_timestamp < c.ttl)

/-- The filter `if d and d.strip()` of `MenuItemCache.load`
(src/menu_cache.py:83). -/
def validMenuRow (p : Option String × String) : Bool :=
  match p.1 with
  | none => false
  | some d => !(d == "") && !(pyStrip d == "")

/-- `MenuItemCache.load` (src/menu_cache.py:67-97). -/
def MenuItemCache.load (c : MenuItemCache) (menu_items : List (Option String × String))
    (force : Bool) (now : ℚ) : MenuItemCache :=
  if !force && c.is_valid now then c
  else
    { c with
      cache_data := some ⟨menu_items.filter validMenuRow,
        (menu_items.filter validMenuRow).length⟩
      cache_timestamp := now
      load_count := c.load_count + 1 }

/-- `MenuItemCache.get` (src/menu_cache.py:99-110). -/
def MenuItemCache.get (c : MenuItemCache) (now : ℚ) :
    Option (List (Option String × String)) :=
  if c.is_valid now then c.cache_data.map (fun d => d.items) else none

/-- The dict returned by `get_stats`; `expires_in = none` models the key
being absent in the empty-cache branch (src/menu_cache.py:122-129). -/
structure CacheStats where
  status : String
  item_count : ℕ
  age_seconds : ℚ
  load_count : ℕ
  ttl : ℚ
  expires_in : Option ℚ
deriving DecidableEq

/-- `MenuItemCache.get_stats` (src/menu_cache.py:120-139). -/
def MenuItemCache.get_stats (c : MenuItemCache) (now : ℚ) : CacheStats :=
  match c.cache_data with
  | none => ⟨"empty", 0, 0, c.load_count, c.ttl, none⟩
  | some d =>
    ⟨if c.is_valid now then "valid" else "expired", d.count,
      pyRound2 (now - c.cache_timestamp), c.load_count, c.ttl,
      some (max 0 (pyRound2 (c.ttl - (now - c.cache_timestamp))))⟩

/-- `MenuItemCache.invalidate` (src/menu_cache.py:141-145): reset only the
timestamp, keep the data. -/
def MenuItemCache.invalidate (c : MenuItemCache) : MenuItemCache :=
  { c with cache_timestamp := 0 }

/-- `MenuItemCache.clear` (src/menu_cache.py:147-152). -/
def MenuItemCache.clear (c : MenuItemCache) : MenuItemCache :=
  { c with cache_data := none, cache_timestamp := 0 }

/-- `get_cached_menu_items` (src/menu_cache.py:159-208).  The fetch function
is modelled by its outcome: `.error` is a raised exception.  The returned
pair is (returned value or raised exception, cache state afterwards); note
the function returns the *unfiltered* fetched `items` while the cache stores
the filtered rows. -/
def get_cached_menu_items (st : MenuItemCache) (now : ℚ)
    (fetch : Except String (List (Option String × String))) (force_refresh : Bool) :
    Except String (List (Option String × String)) × MenuItemCache :=
  match (if !force_refresh && st.is_valid now then st.get now else none) with
  | some cached_items => (.ok cached_items, st)
  | none =>
    match fetch with
    | .error e => (.error e, st)
    | .ok items => (.ok items, st.load items true now)

/-- A concretely loaded cache state for the cache witnesses. -/
def loadedCache : MenuItemCache :=
  ⟨some ⟨[(some "LACTOGEN PRO 1", "ITM001")], 1⟩, 10, 3600, 1⟩

/-! ## Matcher witnesses and the C6 counterexample -/

/-- The candidate index built from `sampleCatalog` (the two rows with a
non-empty description survive). -/
def sampleCache : MatcherCache :=
  ⟨[processItem sampleTuple1, processItem sampleTuple2]⟩

def lactoResult : MatchResult :=
  ⟨"LACTOGEN PRO 1", some "ITM001", some "MENU001", "Pcs", some 12, "Case", "1",
    pyRound2 90, 1⟩

def nescafeResult : MatchResult :=
  ⟨"NESCAFE CLASSIC", some "ITM003", some "MENU003", "", none, "", "",
    pyRound2 90, 2⟩

/-! ## Properties of the normalizer -/

theorem pySplitAux_words (l : List Char) :
    ∀ acc, (∀ c ∈ acc, isPySpace c = false) →
      ∀ w ∈ pySplitAux l acc,
        w ≠ [] ∧ ∀ c ∈ w, isPySpace c = false ∧ (c ∈ l ∨ c ∈ acc) := by
  induction l with
  | nil =>
    intro acc hacc w hw
    simp only [pySplitAux] at hw
    cases hemp : acc.isEmpty with
    | true => simp [hemp] at hw
    | false =>
      simp only [hemp, Bool.false_eq_true, if_false, List.mem_singleton] at hw
      subst hw
      have hne : acc ≠ [] := by
        intro h; subst h; simp at hemp
      refine ⟨by simpa using hne, ?_⟩
      intro c hc
      exact ⟨hacc c (List.mem_reverse.mp hc), Or.inr (List.mem_reverse.mp hc)⟩
  | cons a l ih =>
    intro acc hacc w hw
    simp only [pySplitAux] at hw
    by_cases hsp : isPySpace a
    · simp only [hsp, if_pos] at hw
      cases hemp : acc.isEmpty with
      | true =>
        simp only [hemp, if_pos] at hw
        have := ih [] (by intro c hc; simp at hc) w hw
        refine ⟨this.1, ?_⟩
        intro c hc
        refine ⟨(this.2 c hc).1, ?_⟩
        rcases (this.2 c hc).2 with h | h
        · exact Or.inl (List.mem_cons_of_mem a h)
        · simp at h
      | false =>
        simp only [hemp, Bool.false_eq_true, if_false, List.mem_cons] at hw
        rcases hw with hw | hw
        · subst hw
          have hne : acc ≠ [] := by
            intro h; subst h; simp at hemp
          refine ⟨by simpa using hne, ?_⟩
          intro c hc
          exact ⟨hacc c (List.mem_reverse.mp hc), Or.inr (List.mem_reverse.mp hc)⟩
        · have := ih [] (by intro c hc; simp at hc) w hw
          refine ⟨this.1, ?_⟩
          intro c hc
          refine ⟨(this.2 c hc).1, ?_⟩
          rcases (this.2 c hc).2 with h | h
          · exact Or.inl (List.mem_cons_of_mem a h)
          · simp at h
    · simp only [hsp, if_false] at hw
      have hacc2 : ∀ c ∈ a :: acc, isPySpace c = false := by
        intro c hc
        rcases List.mem_cons.mp hc with h | h
        · subst h; simpa using hsp
        · exact hacc c h
      have := ih (a :: acc) hacc2 w hw
      refine ⟨this.1, ?_⟩
      intro c hc
      refine ⟨(this.2 c hc).1, ?_⟩
      rcases (this.2 c hc).2 with h | h
      · exact Or.inl (List.mem_cons_of_mem a h)
      · rcases List.mem_cons.mp h with h | h
        · exact Or.inl (by rw [h]; exact List.mem_cons_self a l)
        · exact Or.inr h

theorem mem_pyJoinWords {c : Char} :
    ∀ ws : List (List Char), c ∈ pyJoinWords ws → c = ' ' ∨ ∃ w ∈ ws, c ∈ w := by
  intro ws
  induction ws with
  | nil => intro h; simp [pyJoinWords] at h
  | cons w ws ih =>
    cases ws with
    | nil =>
      intro h
      simp only [pyJoinWords] at h
      exact Or.inr ⟨w, List.mem_cons_self _ _, h⟩
    | cons v vs =>
      intro h
      simp only [pyJoinWords] at h
      rcases List.mem_append.mp h with h | h
      · exact Or.inr ⟨w, List.mem_cons_self _ _, h⟩
      · rcases List.mem_cons.mp h with h | h
        · exact Or.inl h
        · rcases ih h with h | ⟨u, hu, hcu⟩
          · exact Or.inl h
          · exact Or.inr ⟨u, List.mem_cons_of_mem _ hu, hcu⟩

theorem pyUpperChar_kept {c : Char} (hk : isKeptChar c = true) : pyUpperChar c = c := by
  have hlt : c.toNat < 97 := by
    unfold isKeptChar isPySpace at hk
    simp only [Bool.or_eq_true, Bool.and_eq_true, decide_eq_true_eq, beq_iff_eq] at hk
    rcases hk with (⟨h1, h2⟩ | ⟨h1, h2⟩) | h
    · omega
    · omega
    · rcases h with ((((h | h) | h) | h) | h) | h <;> (rw [h]; decide)
  unfold pyUpperChar
  rw [if_neg]
  intro hlow
  omega

theorem subChar_kept {c : Char} (hk : isKeptChar c = true) : subChar c = c := by
  simp [subChar, hk]

theorem mem_preprocessList {c : Char} {l : List Char} (h : c ∈ preprocessList l) :
    c = ' ' ∨ (isKeptChar c = true ∧ isPySpace c = false) := by
  unfold preprocessList at h
  rcases mem_pyJoinWords _ h with h | ⟨w, hw, hcw⟩
  · exact Or.inl h
  · have hword := pySplitAux_words _ [] (by intro c hc; simp at hc) w hw
    have hc := hword.2 c hcw
    refine Or.inr ⟨?_, hc.1⟩
    rcases hc.2 with hmem | hmem
    · rcases List.mem_map.mp hmem with ⟨d, _, hd⟩
      subst hd
      unfold subChar at hc ⊢
      by_cases hk : isKeptChar d
      · rw [if_pos hk]; exact hk
      · exfalso
        have := hc.1
        simp [hk, isPySpace] at this
    · simp at hmem

theorem preprocessList_map_fixed (l : List Char) :
    ((preprocessList l).map pyUpperChar).map subChar = preprocessList l := by
  have h1 : (preprocessList l).map pyUpperChar = preprocessList l := by
    rw [List.map_congr_left, List.map_id]
    intro c hc
    rcases mem_preprocessList hc with h | ⟨hk, _⟩
    · rw [h]; rfl
    · exact pyUpperChar_kept hk
  rw [h1]
  rw [List.map_congr_left, List.map_id]
  intro c hc
  rcases mem_preprocessList hc with h | ⟨hk, _⟩
  · rw [h]; rfl
  · exact subChar_kept hk

theorem pySplitAux_word_append (w : List Char) :
    ∀ rest acc, (∀ c ∈ w, isPySpace c = false) →
      pySplitAux (w ++ rest) acc = pySplitAux rest (w.reverse ++ acc) := by
  induction w with
  | nil => intro rest acc _; simp
  | cons a w ih =>
    intro rest acc hw
    have ha : isPySpace a = false := hw a (List.mem_cons_self _ _)
    simp only [List.cons_append, pySplitAux, ha, Bool.false_eq_true, if_false]
    rw [show w.append rest = w ++ rest from rfl,
        ih rest (a :: acc) (fun c hc => hw c (List.mem_cons_of_mem a hc))]
    simp

theorem pySplitAux_word_only (w acc : List Char) (hw : ∀ c ∈ w, isPySpace c = false) :
    pySplitAux w acc = pySplitAux [] (w.reverse ++ acc) := by
  have := pySplitAux_word_append w [] acc hw
  rwa [List.append_nil] at this

theorem pySplit_pyJoinWords :
    ∀ ws : List (List Char),
      (∀ w ∈ ws, w ≠ [] ∧ ∀ c ∈ w, isPySpace c = false) →
      pySplit (pyJoinWords ws) = ws := by
  intro ws
  induction ws with
  | nil => intro _; rfl
  | cons w ws ih =>
    intro h
    have hw := h w (List.mem_cons_self _ _)
    have hne : (w.reverse ++ ([] : List Char)).isEmpty = false := by
      cases hrev : w.reverse with
      | nil => exact absurd (by simpa using congrArg List.reverse hrev) hw.1
      | cons x xs => rfl
    cases ws with
    | nil =>
      show pySplitAux (pyJoinWords [w]) [] = [w]
      simp only [pyJoinWords]
      rw [pySplitAux_word_only w [] hw.2]
      simp only [pySplitAux, hne, Bool.false_eq_true, if_false]
      simp
    | cons v vs =>
      show pySplitAux (pyJoinWords (w :: v :: vs)) [] = w :: v :: vs
      simp only [pyJoinWords]
      rw [pySplitAux_word_append w (' ' :: pyJoinWords (v :: vs)) [] hw.2]
      simp only [pySplitAux, isPySpace, beq_self_eq_true, Bool.true_or, if_pos, hne,
        Bool.false_eq_true, if_false]
      rw [show pySplitAux (pyJoinWords (v :: vs)) [] = v :: vs from
        ih (fun u hu => h u (List.mem_cons_of_mem w hu))]
      simp

theorem preprocessList_idem (l : List Char) :
    preprocessList (preprocessList l) = preprocessList l := by
  have hmaps := preprocessList_map_fixed l
  have htoks : ∀ w ∈ pySplit ((l.map pyUpperChar).map subChar),
      w ≠ [] ∧ ∀ c ∈ w, isPySpace c = false := by
    intro w hw
    have := pySplitAux_words _ [] (by intro c hc; simp at hc) w hw
    exact ⟨this.1, fun c hc => (this.2 c hc).1⟩
  show pyJoinWords (pySplit (((preprocessList l).map pyUpperChar).map subChar))
      = preprocessList l
  rw [hmaps]
  have hunf : pySplit (preprocessList l)
      = pySplit (pyJoinWords (pySplit ((l.map pyUpperChar).map subChar))) := rfl
  rw [hunf, pySplit_pyJoinWords _ htoks]
  rfl

/-- C4: the text normalizer `preprocess_text` is an idempotent, total,
deterministic function: normalizing twice gives the same result as
normalizing once, for every input string. -/
theorem preprocess_text_idempotent (s : String) :
    preprocess_text (preprocess_text s) = preprocess_text s := by
  unfold preprocess_text
  by_cases hs : s = ""
  · simp [hs]
  · rw [if_neg hs]
    by_cases hplist : preprocessList s.data = []
    · rw [hplist]
      decide
    · rw [if_neg (show ¬((⟨preprocessList s.data⟩ : String) = "") from
        fun h => hplist (congrArg String.data h))]
      show (⟨preprocessList (preprocessList s.data)⟩ : String) = ⟨preprocessList s.data⟩
      rw [preprocessList_idem]

/-! ## Properties of `str.strip()` -/

theorem dropWhile_head_not (p : Char → Bool) :
    ∀ (l : List Char) {c : Char}, (l.dropWhile p).head? = some c → p c = false := by
  intro l
  induction l with
  | nil => intro c h; simp at h
  | cons a l ih =>
    intro c h
    rw [List.dropWhile_cons] at h
    by_cases ha : p a
    · rw [if_pos ha] at h; exact ih h
    · rw [if_neg ha] at h
      simp only [List.head?_cons, Option.some_inj] at h
      rw [← h]
      simpa using ha

theorem dropWhile_of_head_not (p : Char → Bool) (l : List Char)
    (h : ∀ c, l.head? = some c → p c = false) : l.dropWhile p = l := by
  cases l with
  | nil => rfl
  | cons a l =>
    rw [List.dropWhile_cons, if_neg]
    simp [h a rfl]

theorem dropWhile_idem (p : Char → Bool) (l : List Char) :
    (l.dropWhile p).dropWhile p = l.dropWhile p := by
  apply dropWhile_of_head_not
  intro c hc
  exact dropWhile_head_not p l hc

theorem pyStripList_idem (l : List Char) :
    pyStripList (pyStripList l) = pyStripList l := by
  unfold pyStripList
  set p := isPySpace with hp
  set A := l.dropWhile p with hA
  set X := A.reverse.dropWhile p with hX
  have hXidem : X.dropWhile p = X := by rw [hX]; exact dropWhile_idem p A.reverse
  have hsplit : A = X.reverse ++ (A.reverse.takeWhile p).reverse := by
    have h1 : A.reverse.takeWhile p ++ X = A.reverse := by
      rw [hX]; exact List.takeWhile_append_dropWhile p A.reverse
    have h2 := congrArg List.reverse h1
    rw [List.reverse_append, List.reverse_reverse] at h2
    exact h2.symm
  have hdropB : X.reverse.dropWhile p = X.reverse := by
    apply dropWhile_of_head_not
    intro c hc
    apply dropWhile_head_not p l
    rw [← hA]
    cases hXr : X.reverse with
    | nil => rw [hXr] at hc; simp at hc
    | cons d ds =>
      rw [hXr] at hc hsplit
      simp only [List.head?_cons, Option.some_inj] at hc
      rw [hsplit, List.cons_append, List.head?_cons, hc]
  rw [hdropB, List.reverse_reverse, hXidem]

theorem pyStrip_idem (s : String) : pyStrip (pyStrip s) = pyStrip s := by
  show (⟨pyStripList (pyStripList s.data)⟩ : String) = ⟨pyStripList s.data⟩
  rw [pyStripList_idem]

theorem roundHalfEven_mono {a b : ℚ} (h : a ≤ b) : roundHalfEven a ≤ roundHalfEven b := by
  unfold roundHalfEven
  have hfab : ⌊a⌋ ≤ ⌊b⌋ := Int.floor_mono h
  rcases eq_or_lt_of_le hfab with heq | hlt
  · have hfq : ((⌊a⌋ : ℚ)) = ((⌊b⌋ : ℚ)) := by exact_mod_cast heq
    have hr : a - ((⌊a⌋ : ℚ)) ≤ b - ((⌊b⌋ : ℚ)) := by linarith
    split_ifs <;> first | omega | (exfalso; linarith)
  · split_ifs <;> omega

theorem pyRound2_mono {a b : ℚ} (h : a ≤ b) : pyRound2 a ≤ pyRound2 b := by
  unfold pyRound2
  have h1 := roundHalfEven_mono (show a * 100 ≤ b * 100 by linarith)
  have h2 : ((roundHalfEven (a * 100) : ℚ)) ≤ ((roundHalfEven (b * 100) : ℚ)) := by
    exact_mod_cast h1
  linarith

theorem rankRel_score_le {a b : ScoredChoice} (h : rankRel a b) : b.score ≤ a.score := by
  rcases h with h | ⟨h, _⟩
  · exact le_of_lt h
  · exact le_of_eq h.symm

theorem mem_insertDesc {z x : ScoredChoice} :
    ∀ {l : List ScoredChoice}, z ∈ insertDesc x l → z = x ∨ z ∈ l := by
  intro l
  induction l with
  | nil => intro h; simpa [insertDesc] using h
  | cons y ys ih =>
    intro h
    unfold insertDesc at h
    split at h
    · rcases List.mem_cons.mp h with h | h
      · exact Or.inl h
      · exact Or.inr h
    · rcases List.mem_cons.mp h with h | h
      · exact Or.inr (by rw [h]; exact List.mem_cons_self _ _)
      · rcases ih h with h | h
        · exact Or.inl h
        · exact Or.inr (List.mem_cons_of_mem _ h)

theorem insertDesc_perm (x : ScoredChoice) :
    ∀ l : List ScoredChoice, (insertDesc x l).Perm (x :: l) := by
  intro l
  induction l with
  | nil => simp [insertDesc]
  | cons y ys ih =>
    unfold insertDesc
    split
    · exact List.Perm.refl _
    · exact ((ih.cons y).trans (List.Perm.swap x y ys))

theorem insertDesc_pairwise {x : ScoredChoice} :
    ∀ {l : List ScoredChoice}, l.Pairwise rankRel → (∀ y ∈ l, y.index < x.index) →
      (insertDesc x l).Pairwise rankRel := by
  intro l
  induction l with
  | nil => intro _ _; simp [insertDesc, List.pairwise_singleton]
  | cons y ys ih =>
    intro hpw hidx
    unfold insertDesc
    split
    · rename_i hlt
      refine List.Pairwise.cons ?_ hpw
      intro z hz
      rcases List.mem_cons.mp hz with h | h
      · rw [h]; exact Or.inl hlt
      · have := List.rel_of_pairwise_cons hpw h
        exact Or.inl (lt_of_le_of_lt (rankRel_score_le this) hlt)
    · rename_i hnlt
      have hyx : rankRel y x := by
        rcases lt_or_eq_of_le (le_of_not_lt hnlt) with h | h
        · exact Or.inl h
        · exact Or.inr ⟨h.symm, hidx y (List.mem_cons_self _ _)⟩
      refine List.Pairwise.cons ?_ (ih (List.Pairwise.of_cons hpw)
        (fun z hz => hidx z (List.mem_cons_of_mem _ hz)))
      intro z hz
      rcases mem_insertDesc hz with h | h
      · rw [h]; exact hyx
      · exact List.rel_of_pairwise_cons hpw h

theorem sortDesc_perm (l : List ScoredChoice) : (sortDesc l).Perm l := by
  suffices h : ∀ (l acc : List ScoredChoice),
      (l.foldl (fun acc x => insertDesc x acc) acc).Perm (acc ++ l) by
    simpa using h l []
  intro l
  induction l with
  | nil => intro acc; simp
  | cons x xs ih =>
    intro acc
    have h1 := ih (insertDesc x acc)
    have h2 : (insertDesc x acc ++ xs).Perm (acc ++ x :: xs) := by
      have h3 : (insertDesc x acc).Perm (x :: acc) := insertDesc_perm x acc
      have h4 : (insertDesc x acc ++ xs).Perm ((x :: acc) ++ xs) := h3.append_right xs
      have h5 : ((x :: acc) ++ xs : List ScoredChoice) = x :: (acc ++ xs) := rfl
      have h6 : (x :: (acc ++ xs) : List ScoredChoice).Perm (acc ++ x :: xs) :=
        List.perm_middle.symm
      exact h4.trans (h5 ▸ h6)
    rw [List.foldl_cons]
    exact h1.trans h2

theorem sortDesc_pairwise :
    ∀ {l : List ScoredChoice}, l.Pairwise (fun a b => a.index < b.index) →
      (sortDesc l).Pairwise rankRel := by
  suffices h : ∀ (l acc : List ScoredChoice), acc.Pairwise rankRel →
      (∀ y ∈ acc, ∀ x ∈ l, y.index < x.index) →
      l.Pairwise (fun a b => a.index < b.index) →
      (l.foldl (fun acc x => insertDesc x acc) acc).Pairwise rankRel by
    intro l hl
    exact h l [] List.Pairwise.nil (by intro y hy; simp at hy) hl
  intro l
  induction l with
  | nil => intro acc hacc _ _; simpa using hacc
  | cons x xs ih =>
    intro acc hacc hcross hl
    rw [List.foldl_cons]
    apply ih
    · exact insertDesc_pairwise hacc
        (fun y hy => hcross y hy x (List.mem_cons_self _ _))
    · intro y hy z hz
      rcases mem_insertDesc hy with h | h
      · rw [h]; exact List.rel_of_pairwise_cons hl hz
      · exact hcross y h z (List.mem_cons_of_mem _ hz)
    · exact List.Pairwise.of_cons hl

theorem mem_scoreChoicesFrom {scorer : String → String → ℚ} {query : String} :
    ∀ {i : ℕ} {cs : List String} {s : ScoredChoice}, s ∈ scoreChoicesFrom scorer query i cs →
      ∃ j, j < cs.length ∧ s.index = i + j ∧ cs.get? j = some s.choice ∧
        s.score = scorer query s.choice := by
  intro i cs
  induction cs generalizing i with
  | nil => intro s h; simp [scoreChoicesFrom] at h
  | cons c cs ih =>
    intro s h
    rcases List.mem_cons.mp h with h | h
    · subst h; exact ⟨0, by simp, rfl, rfl, rfl⟩
    · rcases ih h with ⟨j, hj, hidx, hget, hscore⟩
      exact ⟨j + 1, by simpa using hj, by omega, by simpa using hget, hscore⟩

theorem scoreChoicesFrom_index_lower {scorer : String → String → ℚ} {query : String} :
    ∀ {i : ℕ} {cs : List String} {s : ScoredChoice},
      s ∈ scoreChoicesFrom scorer query i cs → i ≤ s.index := by
  intro i cs hs
  induction cs generalizing i with
  | nil => intro h; simp [scoreChoicesFrom] at h
  | cons c cs ih =>
    intro h
    rcases List.mem_cons.mp h with h | h
    · rw [h]
    · exact Nat.le_of_succ_le (ih h)

theorem scoreChoicesFrom_pairwise (scorer : String → String → ℚ) (query : String) :
    ∀ (i : ℕ) (cs : List String),
      (scoreChoicesFrom scorer query i cs).Pairwise (fun a b => a.index < b.index) := by
  intro i cs
  induction cs generalizing i with
  | nil => exact List.Pairwise.nil
  | cons c cs ih =>
    refine List.Pairwise.cons ?_ (ih (i + 1))
    intro s hs
    show i < s.index
    exact Nat.lt_of_succ_le (scoreChoicesFrom_index_lower hs)

theorem scoreChoicesFrom_length (scorer : String → String → ℚ) (query : String) :
    ∀ (i : ℕ) (cs : List String), (scoreChoicesFrom scorer query i cs).length = cs.length := by
  intro i cs
  induction cs generalizing i with
  | nil => rfl
  | cons c cs ih => simp [scoreChoicesFrom, ih]

theorem processExtract_length_le (scorer : String → String → ℚ) (query : String)
    (choices : List String) (limit : ℕ) (score_cutoff : ℚ) :
    (processExtract scorer query choices limit score_cutoff).length ≤ limit := by
  unfold processExtract
  exact (List.length_take _ _).le.trans (by simp)

theorem processExtract_pairwise (scorer : String → String → ℚ) (query : String)
    (choices : List String) (limit : ℕ) (score_cutoff : ℚ) :
    (processExtract scorer query choices limit score_cutoff).Pairwise rankRel := by
  unfold processExtract
  refine List.Pairwise.sublist (List.take_sublist _ _) ?_
  exact sortDesc_pairwise
    ((scoreChoicesFrom_pairwise scorer query 0 choices).filter _)

theorem mem_processExtract {scorer : String → String → ℚ} {query : String}
    {choices : List String} {limit : ℕ} {score_cutoff : ℚ} {s : ScoredChoice}
    (h : s ∈ processExtract scorer query choices limit score_cutoff) :
    score_cutoff ≤ s.score ∧ s.index < choices.length ∧
      choices.get? s.index = some s.choice ∧ s.score = scorer query s.choice := by
  unfold processExtract at h
  have h1 : s ∈ sortDesc ((scoreChoicesFrom scorer query 0 choices).filter
      (fun s => decide (score_cutoff ≤ s.score))) := List.mem_of_mem_take h
  have h2 := (sortDesc_perm _).mem_iff.mp h1
  have h3 := List.of_mem_filter h2
  have h4 := List.mem_of_mem_filter h2
  rcases mem_scoreChoicesFrom h4 with ⟨j, hj, hidx, hget, hscore⟩
  simp only [Nat.zero_add] at hidx
  refine ⟨by simpa using h3, ?_, ?_, hscore⟩
  · rw [hidx]; exact hj
  · rw [hidx]; exact hget

theorem processExtract_length_full (scorer : String → String → ℚ) (query : String)
    (choices : List String) (limit : ℕ)
    (hpos : ∀ c ∈ choices, 0 ≤ scorer query c) :
    (processExtract scorer query choices limit 0).length = min limit choices.length := by
  unfold processExtract
  rw [List.length_take]
  congr 1
  have hfilter : (scoreChoicesFrom scorer query 0 choices).filter
      (fun s => decide ((0 : ℚ) ≤ s.score))
      = scoreChoicesFrom scorer query 0 choices := by
    apply List.filter_eq_self.mpr
    intro s hs
    rcases mem_scoreChoicesFrom hs with ⟨j, hj, _, hget, hscore⟩
    have : s.choice ∈ choices := by
      exact List.get?_mem hget
    simpa [hscore] using hpos s.choice this
  rw [hfilter, (sortDesc_perm _).length_eq, scoreChoicesFrom_length]

theorem buildResults_length (c : MatcherCache) :
    ∀ (r : ℕ) (ms : List ScoredChoice), (buildResults c r ms).length = ms.length := by
  intro r ms
  induction ms generalizing r with
  | nil => rfl
  | cons s ss ih => simp [buildResults, ih]

theorem buildResults_rank (c : MatcherCache) :
    ∀ (ms : List ScoredChoice) (r i : ℕ) (h : i < (buildResults c r ms).length),
      ((buildResults c r ms).get ⟨i, h⟩).rank = r + i := by
  intro ms
  induction ms with
  | nil => intro r i h; simp [buildResults] at h
  | cons s ss ih =>
    intro r i h
    cases i with
    | zero => rfl
    | succ i =>
      show ((formatResult c r s :: buildResults c (r + 1) ss).get ⟨i + 1, h⟩).rank = r + (i + 1)
      rw [List.get_cons_succ]
      rw [ih (r + 1) i _]
      omega

theorem mem_buildResults (c : MatcherCache) :
    ∀ {ms : List ScoredChoice} {r : ℕ} {x : MatchResult}, x ∈ buildResults c r ms →
      ∃ s ∈ ms, ∃ k, x = formatResult c k s := by
  intro ms
  induction ms with
  | nil => intro r x h; simp [buildResults] at h
  | cons s ss ih =>
    intro r x h
    rcases List.mem_cons.mp h with h | h
    · exact ⟨s, List.mem_cons_self _ _, r, h⟩
    · rcases ih h with ⟨t, ht, k, hk⟩
      exact ⟨t, List.mem_cons_of_mem _ ht, k, hk⟩

theorem buildResults_pairwise (c : MatcherCache) :
    ∀ {ms : List ScoredChoice} {r : ℕ}, ms.Pairwise rankRel →
      (buildResults c r ms).Pairwise (fun a b => b.score ≤ a.score) := by
  intro ms
  induction ms with
  | nil => intro r _; exact List.Pairwise.nil
  | cons s ss ih =>
    intro r hpw
    refine List.Pairwise.cons ?_ (ih (List.Pairwise.of_cons hpw))
    intro y hy
    rcases mem_buildResults c hy with ⟨t, ht, k, hk⟩
    have hts : t.score ≤ s.score := rankRel_score_le (List.rel_of_pairwise_cons hpw ht)
    show y.score ≤ (formatResult c r s).score
    rw [hk]
    show pyRound2 t.score ≤ pyRound2 s.score
    exact pyRound2_mono hts

/-- C1: every successful `match_single` call returns only candidates scoring
at least `scoreCutoff`, in non-increasing score order with ties broken by
catalog order (earlier-loaded entry first), at most `limit` of them, each
carrying the 1-based rank equal to its list position. -/
theorem match_single_ranked (f : ScorerFamily) (m : FuzzyMatcher) (now : ℚ)
    (query : String) (limit : ℕ) (score_cutoff : ℚ) (scorer_name : String)
    (ret : MatchReturn)
    (hok : m.match_single f now query limit score_cutoff scorer_name = .ok ret) :
    MatchSinglePost f m query limit score_cutoff scorer_name ret := by
  unfold FuzzyMatcher.match_single at hok
  split at hok
  · exact absurd hok (by simp)
  · rename_i cch heq
    split at hok
    · split at hok
      · have hret : ret = .listReturn [] := (Except.ok.inj hok).symm
        subst hret
        refine ⟨by simp [matchReturnList], by intro i h; simp [matchReturnList] at h,
          by simp [matchReturnList], cch, [], heq, rfl, List.Pairwise.nil, ?_⟩
        intro s hs
        simp at hs
      · have hret : ret = .dictReturn
            (buildResults cch 1
              (processExtract (f.get scorer_name) (preprocess_text (pyStrip query))
                cch.preprocessed_list limit score_cutoff))
            (buildResults cch 1
              (processExtract (f.get scorer_name) (preprocess_text (pyStrip query))
                cch.preprocessed_list limit score_cutoff)).head? := (Except.ok.inj hok).symm
        subst hret
        set ms := processExtract (f.get scorer_name) (preprocess_text (pyStrip query))
          cch.preprocessed_list limit score_cutoff with hms
        refine ⟨?_, ?_, ?_, cch, ms, heq, rfl, processExtract_pairwise _ _ _ _ _, ?_⟩
        · show (buildResults cch 1 ms).length ≤ limit
          rw [buildResults_length]
          exact processExtract_length_le _ _ _ _ _
        · intro i h
          show ((buildResults cch 1 ms).get ⟨i, h⟩).rank = i + 1
          rw [buildResults_rank]
          omega
        · exact buildResults_pairwise cch (processExtract_pairwise _ _ _ _ _)
        · intro s hs
          exact mem_processExtract hs
    · exact absurd hok (by simp)

/-- Forward evaluation of `match_single` on a valid cache and a non-blank
query. -/
theorem match_single_eval (f : ScorerFamily) (m : FuzzyMatcher) (now : ℚ)
    (query : String) (limit : ℕ) (score_cutoff : ℚ) (scorer_name : String)
    (cch : MatcherCache) (hc : m.cache = some cch)
    (ht : now - m.cache_timestamp < m.cache_ttl)
    (hq : ¬(query = "" ∨ pyStrip query = "")) :
    m.match_single f now query limit score_cutoff scorer_name =
      .ok (.dictReturn
        (buildResults cch 1
          (processExtract (f.get scorer_name) (preprocess_text (pyStrip query))
            cch.preprocessed_list limit score_cutoff))
        (buildResults cch 1
          (processExtract (f.get scorer_name) (preprocess_text (pyStrip query))
            cch.preprocessed_list limit score_cutoff)).head?) := by
  simp only [FuzzyMatcher.match_single, hc]
  rw [if_pos ht, if_neg hq]

theorem pyTruthyStr_eq (o : Option String) :
    pyTruthyStr o = decide (o ≠ none ∧ o ≠ some "") := by
  cases o with
  | none => simp [pyTruthyStr]
  | some s =>
    by_cases h : s = ""
    · subst h; simp [pyTruthyStr]
    · simp [pyTruthyStr, h]

theorem mem_loaded_items {menu_items : List MenuTuple} {item : ProcessedItem}
    (h : item ∈ (menu_items.filter (fun t => pyTruthyStr t.desca)).map processItem) :
    ∃ t ∈ menu_items, t.desca = some item.original_desca ∧ item.original_desca ≠ "" := by
  rcases List.mem_map.mp h with ⟨t, ht, hti⟩
  have htf := List.of_mem_filter ht
  have htm := List.mem_of_mem_filter ht
  cases hdesca : t.desca with
  | none => rw [hdesca] at htf; simp [pyTruthyStr] at htf
  | some s =>
    have hs : s ≠ "" := by
      rw [hdesca] at htf
      simpa [pyTruthyStr] using htf
    have hdesc : item.original_desca = s := by
      rw [← hti]
      show (t.desca.getD "") = s
      rw [hdesca]
      rfl
    exact ⟨t, htm, by rw [hdesca, hdesc], by rw [hdesc]; exact hs⟩

/-- C3: building the candidate index retains exactly the entries with a
non-empty description, and no entry with an empty or missing description can
ever appear as a match candidate. -/
theorem load_menu_items_filters (menu_items : List MenuTuple) (m : FuzzyMatcher)
    (now : ℚ) : LoadPost menu_items m now := by
  refine ⟨⟨(menu_items.filter (fun t : MenuTuple => pyTruthyStr t.desca)).map processItem⟩,
    rfl, ?_, ?_⟩
  · show ((menu_items.filter (fun t => pyTruthyStr t.desca)).map processItem).length = _
    rw [List.length_map]
    rw [List.countP_eq_length_filter]
    congr 1
    apply List.filter_congr
    intro t _
    exact pyTruthyStr_eq t.desca
  · intro f now2 q limit score_cutoff scorer_name ret hok r hr
    unfold FuzzyMatcher.match_single at hok
    split at hok
    · exact absurd hok (by simp)
    · rename_i cch heq
      have hcch : cch = ⟨(menu_items.filter (fun t => pyTruthyStr t.desca)).map processItem⟩ :=
        (Option.some.inj heq).symm
      split at hok
      · split at hok
        · have hret : ret = .listReturn [] := (Except.ok.inj hok).symm
          rw [hret] at hr
          simp [matchReturnList] at hr
        · have hret := (Except.ok.inj hok).symm
          rw [hret] at hr
          simp only [matchReturnList] at hr
          rcases mem_buildResults cch hr with ⟨s, hs, k, hk⟩
          have hmem := mem_processExtract hs
          have hidx : s.index < cch.items.length := by
            have := hmem.2.1
            simpa [MatcherCache.preprocessed_list] using this
          have hitem : cch.items.getD s.index defaultProcessedItem ∈ cch.items := by
            rw [List.getD_eq_getElem _ _ hidx]
            exact List.getElem_mem _
          have hdesc : r.desca = (cch.items.getD s.index defaultProcessedItem).original_desca := by
            rw [hk]; rfl
          rw [hcch] at hitem
          rcases mem_loaded_items hitem with ⟨t, htm, htd, htne⟩
          refine ⟨t, htm, ?_, ?_⟩
          · rw [hdesc, hcch]; exact htd
          · rw [hdesc, hcch]; exact htne
      · exact absurd hok (by simp)

/-- C10: calling `match_single` or `match_batch` before `load_menu_items`,
or after the TTL has elapsed since the last load, raises
`ValueError("Cache is invalid or expired...")` instead of returning a result. -/
theorem match_requires_valid_cache (f : ScorerFamily) (m : FuzzyMatcher) (now : ℚ)
    (query : String) (queries : List String) (limit : ℕ) (score_cutoff : ℚ)
    (scorer_name : String)
    (h : m.cache = none ∨ m.cache_ttl ≤ now - m.cache_timestamp) :
    m.match_single f now query limit score_cutoff scorer_name = .error cacheInvalidMsg ∧
    m.match_batch f now queries limit score_cutoff scorer_name = .error cacheInvalidMsg := by
  constructor
  · unfold FuzzyMatcher.match_single
    cases hcache : m.cache with
    | none => rfl
    | some cch =>
      rcases h with h | h
      · rw [hcache] at h; cases h
      · simp only []
        rw [if_neg (not_lt.mpr h)]
  · unfold FuzzyMatcher.match_batch
    cases hcache : m.cache with
    | none => rfl
    | some cch =>
      rcases h with h | h
      · rw [hcache] at h; cases h
      · simp only []
        rw [if_neg (not_lt.mpr h)]

/-- C6 (amended): with `scoreCutoff = 0`, a valid cache, a query that is
non-blank after trimming, and a scorer that never returns a negative score
(RapidFuzz scorers return values in [0,100]), `match_single` returns a list
of length `min limit (index size)`. -/
theorem match_single_cutoff_zero_length (f : ScorerFamily) (m : FuzzyMatcher)
    (now : ℚ) (query : String) (limit : ℕ) (scorer_name : String)
    (cch : MatcherCache) (hc : m.cache = some cch)
    (ht : now - m.cache_timestamp < m.cache_ttl)
    (hq : pyStrip query ≠ "")
    (hpos : ∀ a b, 0 ≤ (f.get scorer_name) a b) :
    ∃ ret, m.match_single f now query limit 0 scorer_name = .ok ret ∧
      (matchReturnList ret).length = min limit cch.item_count := by
  have hq0 : query ≠ "" := by
    intro h
    rw [h] at hq
    exact hq rfl
  refine ⟨_, match_single_eval f m now query limit 0 scorer_name cch hc ht
    (by push_neg; exact ⟨hq0, hq⟩), ?_⟩
  show (buildResults cch 1 _).length = _
  rw [buildResults_length]
  rw [processExtract_length_full _ _ _ _ (fun c _ => hpos _ c)]
  unfold MatcherCache.item_count MatcherCache.preprocessed_list
  rw [List.length_map]

/-! ## Orchestrator lemmas and claims C2, C5, C8 -/

theorem is_cache_valid_true_iff (m : FuzzyMatcher) (now : ℚ) :
    m.is_cache_valid now = true ↔
      ∃ cch, m.cache = some cch ∧ now - m.cache_timestamp < m.cache_ttl := by
  unfold FuzzyMatcher.is_cache_valid
  cases h : m.cache with
  | none => simp [h]
  | some c => simp [h]

theorem stripped_query_guard {raw : String} (h : pyStrip raw ≠ "") :
    ¬(pyStrip raw = "" ∨ pyStrip (pyStrip raw) = "") := by
  push_neg
  exact ⟨h, by rw [pyStrip_idem]; exact h⟩

theorem classifyConfidence_spec (fms : List MatchResult) :
    (classifyConfidence fms = "high" ↔ ∃ m ms, fms = m :: ms ∧ 85 ≤ m.score) ∧
    (classifyConfidence fms = "medium" ↔
      ∃ m ms, fms = m :: ms ∧ 70 ≤ m.score ∧ m.score < 85) ∧
    (classifyConfidence fms = "low" ↔
      ∃ m ms, fms = m :: ms ∧ 60 ≤ m.score ∧ m.score < 70) ∧
    (classifyConfidence fms = "none" ↔
      fms = [] ∨ ∃ m ms, fms = m :: ms ∧ m.score < 60) := by
  cases fms with
  | nil => refine ⟨?_, ?_, ?_, ?_⟩ <;> simp [classifyConfidence]
  | cons m ms =>
    show _ ∧ _ ∧ _ ∧ _
    simp only [classifyConfidence]
    by_cases h85 : (85 : ℚ) ≤ m.score
    · rw [if_pos h85]
      refine ⟨⟨fun _ => ⟨m, ms, rfl, h85⟩, fun _ => rfl⟩, ?_, ?_, ?_⟩
      · constructor
        · intro h; exact absurd h (by decide)
        · rintro ⟨m2, ms2, heq, _, hc2⟩
          injection heq with e1 _
          subst e1
          linarith
      · constructor
        · intro h; exact absurd h (by decide)
        · rintro ⟨m2, ms2, heq, _, hc2⟩
          injection heq with e1 _
          subst e1
          linarith
      · constructor
        · intro h; exact absurd h (by decide)
        · rintro (h | ⟨m2, ms2, heq, hc⟩)
          · exact absurd h (by simp)
          · injection heq with e1 _
            subst e1
            linarith
    · rw [if_neg h85]
      by_cases h70 : (70 : ℚ) ≤ m.score
      · rw [if_pos h70]
        push_neg at h85
        refine ⟨?_, ⟨fun _ => ⟨m, ms, rfl, h70, h85⟩, fun _ => rfl⟩, ?_, ?_⟩
        · constructor
          · intro h; exact absurd h (by decide)
          · rintro ⟨m2, ms2, heq, hc⟩
            injection heq with e1 _
            subst e1
            linarith
        · constructor
          · intro h; exact absurd h (by decide)
          · rintro ⟨m2, ms2, heq, _, hc2⟩
            injection heq with e1 _
            subst e1
            linarith
        · constructor
          · intro h; exact absurd h (by decide)
          · rintro (h | ⟨m2, ms2, heq, hc⟩)
            · exact absurd h (by simp)
            · injection heq with e1 _
              subst e1
              linarith
      · rw [if_neg h70]
        by_cases h60 : (60 : ℚ) ≤ m.score
        · rw [if_pos h60]
          push_neg at h85 h70
          refine ⟨?_, ?_, ⟨fun _ => ⟨m, ms, rfl, h60, h70⟩, fun _ => rfl⟩, ?_⟩
          · constructor
            · intro h; exact absurd h (by decide)
            · rintro ⟨m2, ms2, heq, hc⟩
              injection heq with e1 _
              subst e1
              linarith
          · constructor
            · intro h; exact absurd h (by decide)
            · rintro ⟨m2, ms2, heq, hc1, _⟩
              injection heq with e1 _
              subst e1
              linarith
          · constructor
            · intro h; exact absurd h (by decide)
            · rintro (h | ⟨m2, ms2, heq, hc⟩)
              · exact absurd h (by simp)
              · injection heq with e1 _
                subst e1
                linarith
        · rw [if_neg h60]
          push_neg at h85 h70 h60
          refine ⟨?_, ?_, ?_,
            ⟨fun _ => Or.inr ⟨m, ms, rfl, h60⟩, fun _ => rfl⟩⟩
          · constructor
            · intro h; exact absurd h (by decide)
            · rintro ⟨m2, ms2, heq, hc⟩
              injection heq with e1 _
              subst e1
              linarith
          · constructor
            · intro h; exact absurd h (by decide)
            · rintro ⟨m2, ms2, heq, hc1, _⟩
              injection heq with e1 _
              subst e1
              linarith
          · constructor
            · intro h; exact absurd h (by decide)
            · rintro ⟨m2, ms2, heq, hc1, _⟩
              injection heq with e1 _
              subst e1
              linarith

/-- C5 (amended): for a line item whose description is empty after trimming,
the orchestrator records empty candidates, an absent best match, confidence
tier "none" and resolution "Not Matched", leaves every other field of the
item (including the tax fields `menuitem_vat` and `isVAT`) untouched, and
continues without raising. -/
theorem empty_description_enrichment (f : ScorerFamily) (matcher : FuzzyMatcher)
    (now : ℚ) (connection : Option (String → String → OverlayOutcome))
    (supplier_name : String) (top_k : ℕ) (score_cutoff : ℚ) (product : Product)
    (h : pyStrip (product.sku.getD "") = "") :
    processProduct f matcher now connection supplier_name top_k score_cutoff product =
      .ok { product with
            fuzzy_matches := some []
            best_match := some none
            match_confidence := some "none"
            mapped_nature := some "Not Matched" } := by
  unfold processProduct
  rw [if_pos h]

/-- C5 counterexample: the claim additionally asserts `taxApplicable`
(`isVAT`) is set to false for an empty description, but the code's empty
branch (src/fuzzy_matcher.py:427-434) never writes `isVAT`: on a product
without that key the output still lacks it (`none`), rather than carrying
the value 0. -/
theorem empty_description_no_isvat :
    processProduct (constScorerFamily 90) sampleMatcher 1 none "" 3 60
        ⟨some "", none, none, none, none, none, none⟩
      = .ok ⟨some "", some [], some none, some "none", some "Not Matched", none, none⟩ ∧
    (⟨some "", some [], some none, some "none", some "Not Matched", none, none⟩ :
        Product).isVAT ≠ some 0 := by
  constructor
  · rfl
  · decide

theorem empty_description_enrichment_witness :
    processProduct (constScorerFamily 90) sampleMatcher 1 none "" 3 60 blankProduct =
      .ok { blankProduct with
            fuzzy_matches := some []
            best_match := some none
            match_confidence := some "none"
            mapped_nature := some "Not Matched" } :=
  empty_description_enrichment (constScorerFamily 90) sampleMatcher 1 none "" 3 60
    blankProduct (by decide)

/-- C2: for a line item that goes through fuzzy matching (non-blank
description, no overlay hit, valid cache), the recorded confidence tier is
determined by the best candidate's (rounded) score with inclusive lower
bounds: "high" iff score ≥ 85, "medium" iff 70 ≤ score < 85, "low" iff
60 ≤ score < 70, and "none" iff there is no candidate or the score is
below 60. -/
theorem fuzzy_confidence_tiers (f : ScorerFamily) (matcher : FuzzyMatcher) (now : ℚ)
    (connection : Option (String → String → OverlayOutcome)) (supplier_name : String)
    (top_k : ℕ) (score_cutoff : ℚ) (product : Product)
    (hsku : pyStrip (product.sku.getD "") ≠ "")
    (hmiss : overlayMappedMatch connection supplier_name (pyStrip (product.sku.getD ""))
      = none)
    (hvalid : matcher.is_cache_valid now = true) :
    ∃ p2 fms,
      processProduct f matcher now connection supplier_name top_k score_cutoff product
        = .ok p2 ∧
      p2.fuzzy_matches = some fms ∧
      (p2.match_confidence = some "high" ↔ ∃ m ms, fms = m :: ms ∧ 85 ≤ m.score) ∧
      (p2.match_confidence = some "medium" ↔
        ∃ m ms, fms = m :: ms ∧ 70 ≤ m.score ∧ m.score < 85) ∧
      (p2.match_confidence = some "low" ↔
        ∃ m ms, fms = m :: ms ∧ 60 ≤ m.score ∧ m.score < 70) ∧
      (p2.match_confidence = some "none" ↔
        fms = [] ∨ ∃ m ms, fms = m :: ms ∧ m.score < 60) := by
  obtain ⟨cch, hc, ht⟩ := (is_cache_valid_true_iff matcher now).mp hvalid
  have heval : processProduct f matcher now connection supplier_name top_k
      score_cutoff product = .ok
      { product with
        fuzzy_matches := some (buildResults cch 1
          (processExtract (f.get "token_set_ratio")
            (preprocess_text (pyStrip (pyStrip (product.sku.getD ""))))
            cch.preprocessed_list top_k score_cutoff))
        best_match := some (buildResults cch 1
          (processExtract (f.get "token_set_ratio")
            (preprocess_text (pyStrip (pyStrip (product.sku.getD ""))))
            cch.preprocessed_list top_k score_cutoff)).head?
        menuitem_vat := some (fuzzyVat (buildResults cch 1
          (processExtract (f.get "token_set_ratio")
            (preprocess_text (pyStrip (pyStrip (product.sku.getD ""))))
            cch.preprocessed_list top_k score_cutoff)).head?)
        isVAT := some (fuzzyIsVat (buildResults cch 1
          (processExtract (f.get "token_set_ratio")
            (preprocess_text (pyStrip (pyStrip (product.sku.getD ""))))
            cch.preprocessed_list top_k score_cutoff)).head?)
        match_confidence := some (classifyConfidence (buildResults cch 1
          (processExtract (f.get "token_set_ratio")
            (preprocess_text (pyStrip (pyStrip (product.sku.getD ""))))
            cch.preprocessed_list top_k score_cutoff)))
        mapped_nature := some (if (buildResults cch 1
          (processExtract (f.get "token_set_ratio")
            (preprocess_text (pyStrip (pyStrip (product.sku.getD ""))))
            cch.preprocessed_list top_k score_cutoff)).isEmpty
          then "Not Matched" else "New Mapped") } := by
    unfold processProduct
    rw [if_neg hsku, hmiss,
      match_single_eval f matcher now (pyStrip (product.sku.getD "")) top_k score_cutoff
        "token_set_ratio" cch hc ht (stripped_query_guard hsku)]
  set fms := buildResults cch 1
    (processExtract (f.get "token_set_ratio")
      (preprocess_text (pyStrip (pyStrip (product.sku.getD ""))))
      cch.preprocessed_list top_k score_cutoff) with hfms
  obtain ⟨hhigh, hmed, hlow, hnone⟩ := classifyConfidence_spec fms
  refine ⟨_, fms, heval, rfl, ?_, ?_, ?_, ?_⟩
  · exact (Option.some_inj.trans hhigh)
  · exact (Option.some_inj.trans hmed)
  · exact (Option.some_inj.trans hlow)
  · exact (Option.some_inj.trans hnone)

theorem fuzzy_confidence_tiers_witness :
    ∃ p2 fms,
      processProduct (constScorerFamily 90) sampleMatcher 1 none "" 3 60 lactogenProduct
        = .ok p2 ∧
      p2.fuzzy_matches = some fms ∧
      (p2.match_confidence = some "high" ↔ ∃ m ms, fms = m :: ms ∧ 85 ≤ m.score) ∧
      (p2.match_confidence = some "medium" ↔
        ∃ m ms, fms = m :: ms ∧ 70 ≤ m.score ∧ m.score < 85) ∧
      (p2.match_confidence = some "low" ↔
        ∃ m ms, fms = m :: ms ∧ 60 ≤ m.score ∧ m.score < 70) ∧
      (p2.match_confidence = some "none" ↔
        fms = [] ∨ ∃ m ms, fms = m :: ms ∧ m.score < 60) :=
  fuzzy_confidence_tiers (constScorerFamily 90) sampleMatcher 1 none "" 3 60
    lactogenProduct (by decide) rfl
    (decide_eq_true (show (1 : ℚ) - 0 < 3600 by norm_num))

theorem overlayMappedMatch_raised (supplier_name sku_query : String) :
    overlayMappedMatch (some (fun _ _ => .raised)) supplier_name sku_query = none := by
  by_cases h : supplier_name ≠ ""
  · simp only [overlayMappedMatch, if_pos h]
  · simp only [overlayMappedMatch, if_neg h]

theorem overlayMappedMatch_notFound (supplier_name sku_query : String) :
    overlayMappedMatch (some (fun _ _ => .notFound)) supplier_name sku_query = none := by
  by_cases h : supplier_name ≠ ""
  · simp only [overlayMappedMatch, if_pos h]
  · simp only [overlayMappedMatch, if_neg h]

theorem processProduct_overlay_congr (f : ScorerFamily) (matcher : FuzzyMatcher)
    (now : ℚ) (conn1 conn2 : Option (String → String → OverlayOutcome))
    (supplier_name : String) (top_k : ℕ) (score_cutoff : ℚ) (product : Product)
    (h : ∀ q, overlayMappedMatch conn1 supplier_name q
      = overlayMappedMatch conn2 supplier_name q) :
    processProduct f matcher now conn1 supplier_name top_k score_cutoff product =
      processProduct f matcher now conn2 supplier_name top_k score_cutoff product := by
  unfold processProduct
  rw [h]

theorem processProduct_ok (f : ScorerFamily) (matcher : FuzzyMatcher) (now : ℚ)
    (connection : Option (String → String → OverlayOutcome)) (supplier_name : String)
    (top_k : ℕ) (score_cutoff : ℚ) (product : Product) (cch : MatcherCache)
    (hc : matcher.cache = some cch)
    (ht : now - matcher.cache_timestamp < matcher.cache_ttl) :
    ∃ p2, processProduct f matcher now connection supplier_name top_k score_cutoff product
      = .ok p2 := by
  unfold processProduct
  by_cases hsku : pyStrip (product.sku.getD "") = ""
  · rw [if_pos hsku]
    exact ⟨_, rfl⟩
  · rw [if_neg hsku]
    cases hov : overlayMappedMatch connection supplier_name (pyStrip (product.sku.getD "")) with
    | some mm => exact ⟨_, rfl⟩
    | none =>
      rw [match_single_eval f matcher now (pyStrip (product.sku.getD "")) top_k score_cutoff
        "token_set_ratio" cch hc ht (stripped_query_guard hsku)]
      exact ⟨_, rfl⟩

theorem matchProducts_overlay_raised (f : ScorerFamily) (matcher : FuzzyMatcher)
    (now : ℚ) (supplier_name : String) (top_k : ℕ) (score_cutoff : ℚ)
    (cch : MatcherCache) (hc : matcher.cache = some cch)
    (ht : now - matcher.cache_timestamp < matcher.cache_ttl) :
    ∀ ps : List Product,
      matchProducts f matcher now (some (fun _ _ => .raised)) supplier_name top_k
          score_cutoff ps
        = matchProducts f matcher now (some (fun _ _ => .notFound)) supplier_name top_k
          score_cutoff ps ∧
      ∃ l, matchProducts f matcher now (some (fun _ _ => .raised)) supplier_name top_k
          score_cutoff ps = .ok l ∧ l.length = ps.length := by
  intro ps
  induction ps with
  | nil => exact ⟨rfl, [], rfl, rfl⟩
  | cons p ps ih =>
    have hcongr := processProduct_overlay_congr f matcher now
      (some (fun _ _ => .raised)) (some (fun _ _ => .notFound)) supplier_name top_k
      score_cutoff p
      (fun q => by rw [overlayMappedMatch_raised, overlayMappedMatch_notFound])
    obtain ⟨p2, hp2⟩ := processProduct_ok f matcher now (some (fun _ _ => .raised))
      supplier_name top_k score_cutoff p cch hc ht
    obtain ⟨l, hl, hlen⟩ := ih.2
    constructor
    · simp only [matchProducts]
      rw [hcongr, ih.1]
    · simp only [matchProducts]
      rw [hp2, hl]
      exact ⟨p2 :: l, rfl, by simp [hlen]⟩

/-- C8: if the overlay lookup raises for every item (the persistence layer
is unreachable), the orchestrator behaves exactly as if every lookup were a
miss — each item degrades to fuzzy matching — and the run still succeeds,
producing one enriched item per input item (no error surfaces to the caller
and no remaining item is skipped). -/
theorem overlay_errors_degrade (f : ScorerFamily) (ocr_products : List Product)
    (menu_items : List MenuTuple) (top_k : ℕ) (score_cutoff : ℚ)
    (supplier_name : String) (now : ℚ) :
    match_ocr_products f ocr_products menu_items top_k score_cutoff
        (some (fun _ _ => .raised)) supplier_name now
      = match_ocr_products f ocr_products menu_items top_k score_cutoff
        (some (fun _ _ => .notFound)) supplier_name now ∧
    ∃ l, match_ocr_products f ocr_products menu_items top_k score_cutoff
        (some (fun _ _ => .raised)) supplier_name now = .ok l ∧
      l.length = ocr_products.length := by
  have ht : now - ((FuzzyMatcher.init 3600).load_menu_items menu_items now).cache_timestamp
      < ((FuzzyMatcher.init 3600).load_menu_items menu_items now).cache_ttl := by
    show now - now < 3600
    rw [sub_self]
    norm_num
  exact matchProducts_overlay_raised f _ now supplier_name top_k score_cutoff
    _ rfl ht ocr_products

/-! ## Cache claims C7 and C9 -/

/-- C7: when a refresh actually consults the fetch function (forced, or the
cache is not valid) and the fetch raises, the exception propagates to the
caller of `get_cached_menu_items` and the cache state — including any
previously cached snapshot — is completely unchanged. -/
theorem fetch_failure_preserves_snapshot (st : MenuItemCache) (now : ℚ) (e : String)
    (force_refresh : Bool)
    (hrefresh : force_refresh = true ∨ st.is_valid now = false) :
    get_cached_menu_items st now (.error e) force_refresh = (.error e, st) := by
  unfold get_cached_menu_items
  rcases hrefresh with h | h
  · rw [h]; simp
  · simp [h]

theorem fetch_failure_preserves_snapshot_witness :
    get_cached_menu_items loadedCache 20 (.error "db down") true
      = (.error "db down", loadedCache) :=
  fetch_failure_preserves_snapshot loadedCache 20 "db down" true (Or.inl rfl)

theorem is_valid_eq (c : MenuItemCache) (now : ℚ) :
    c.is_valid now = (c.cache_data.isSome && decide (now - c.cache_timestamp < c.ttl)) := by
  unfold MenuItemCache.is_valid
  cases c.cache_data <;> simp

theorem invalidate_is_valid_false (st : MenuItemCache) (now : ℚ) (hnow : st.ttl ≤ now) :
    st.invalidate.is_valid now = false := by
  rw [is_valid_eq]
  have h : ¬(now - st.invalidate.cache_timestamp < st.invalidate.ttl) := by
    show ¬(now - 0 < st.ttl)
    rw [sub_zero]
    exact not_lt.mpr hnow
  simp [h]

theorem get_stats_some (c : MenuItemCache) (now : ℚ) (d : MenuCacheData)
    (h : c.cache_data = some d) :
    c.get_stats now = ⟨if c.is_valid now then "valid" else "expired", d.count,
      pyRound2 (now - c.cache_timestamp), c.load_count, c.ttl,
      some (max 0 (pyRound2 (c.ttl - (now - c.cache_timestamp))))⟩ := by
  unfold MenuItemCache.get_stats
  rw [h]

/-- C9: after `invalidate()` on a loaded cache, the next `get_stats` (with no
intervening `get`/`load`) reports status "expired", while the cached data is
not cleared: the stored item list, its count, the TTL and the load counter
are unchanged — `invalidate` touches only the timestamp.  (The hypothesis
`ttl ≤ now` holds in the real system: `invalidate` zeroes the Unix epoch
timestamp and `time.time()` vastly exceeds any configured TTL.) -/
theorem invalidate_expires_without_clearing (st : MenuItemCache) (now : ℚ)
    (d : MenuCacheData) (hdata : st.cache_data = some d) (hnow : st.ttl ≤ now) :
    (st.invalidate.get_stats now).status = "expired" ∧
    st.invalidate.cache_data = st.cache_data ∧
    (st.invalidate.get_stats now).item_count = d.count ∧
    st.invalidate.ttl = st.ttl ∧
    st.invalidate.load_count = st.load_count := by
  have hval := invalidate_is_valid_false st now hnow
  have hstats := get_stats_some st.invalidate now d
    (show st.invalidate.cache_data = some d from hdata)
  refine ⟨?_, rfl, ?_, rfl, rfl⟩
  · rw [hstats]
    show (if st.invalidate.is_valid now then "valid" else "expired") = "expired"
    rw [hval]
    rfl
  · rw [hstats]

theorem invalidate_expires_without_clearing_witness :
    (loadedCache.invalidate.get_stats 5000).status = "expired" ∧
    loadedCache.invalidate.cache_data = loadedCache.cache_data ∧
    (loadedCache.invalidate.get_stats 5000).item_count
      = (⟨[(some "LACTOGEN PRO 1", "ITM001")], 1⟩ : MenuCacheData).count ∧
    loadedCache.invalidate.ttl = loadedCache.ttl ∧
    loadedCache.invalidate.load_count = loadedCache.load_count :=
  invalidate_expires_without_clearing loadedCache 5000
    ⟨[(some "LACTOGEN PRO 1", "ITM001")], 1⟩ rfl (show (3600 : ℚ) ≤ 5000 by norm_num)

theorem match_single_ranked_witness :
    MatchSinglePost (constScorerFamily 90) sampleMatcher "Lactogen" 5 60
      "token_set_ratio" (.dictReturn [lactoResult, nescafeResult] (some lactoResult)) :=
  match_single_ranked (constScorerFamily 90) sampleMatcher 1 "Lactogen" 5 60
    "token_set_ratio" (.dictReturn [lactoResult, nescafeResult] (some lactoResult))
    (by
      rw [match_single_eval (constScorerFamily 90) sampleMatcher 1 "Lactogen" 5 60
        "token_set_ratio" sampleCache rfl (show (1 : ℚ) - 0 < 3600 by norm_num)
        (by decide)]
      exact rfl)

theorem load_menu_items_filters_witness :
    LoadPost sampleCatalog (FuzzyMatcher.init 3600) 0 :=
  load_menu_items_filters sampleCatalog (FuzzyMatcher.init 3600) 0

/-- Forward evaluation of `match_single` on a valid cache and a blank query:
the bare empty list is returned. -/
theorem match_single_eval_blank (f : ScorerFamily) (m : FuzzyMatcher) (now : ℚ)
    (query : String) (limit : ℕ) (score_cutoff : ℚ) (scorer_name : String)
    (cch : MatcherCache) (hc : m.cache = some cch)
    (ht : now - m.cache_timestamp < m.cache_ttl)
    (hq : query = "" ∨ pyStrip query = "") :
    m.match_single f now query limit score_cutoff scorer_name = .ok (.listReturn []) := by
  simp only [FuzzyMatcher.match_single, hc]
  rw [if_pos ht, if_pos hq]

/-- C6 counterexample: with the empty query, a non-empty index (2 entries)
and `scoreCutoff = 0`, `match_single` returns the empty list, whose length 0
differs from `min limit (index size) = min 1 2 = 1`. -/
theorem cutoff_zero_empty_query_cex :
    sampleMatcher.cache = some sampleCache ∧
    sampleCache.item_count = 2 ∧
    sampleMatcher.match_single (constScorerFamily 90) 1 "" 1 0 "token_set_ratio"
      = .ok (.listReturn []) ∧
    (matchReturnList (.listReturn [])).length = 0 ∧
    min 1 sampleCache.item_count = 1 ∧
    (0 : ℕ) ≠ 1 :=
  ⟨rfl, rfl,
    match_single_eval_blank (constScorerFamily 90) sampleMatcher 1 "" 1 0
      "token_set_ratio" sampleCache rfl (show (1 : ℚ) - 0 < 3600 by norm_num)
      (Or.inl rfl),
    rfl, rfl, by decide⟩

theorem match_single_cutoff_zero_length_witness :
    ∃ ret, sampleMatcher.match_single (constScorerFamily 90) 1 "Lactogen" 1 0
        "token_set_ratio" = .ok ret ∧
      (matchReturnList ret).length = min 1 sampleCache.item_count :=
  match_single_cutoff_zero_length (constScorerFamily 90) sampleMatcher 1 "Lactogen" 1
    "token_set_ratio" sampleCache rfl (show (1 : ℚ) - 0 < 3600 by norm_num)
    (by decide) (fun a b => show (0 : ℚ) ≤ 90 by norm_num)

theorem match_requires_valid_cache_witness :
    (FuzzyMatcher.init 3600).match_single (constScorerFamily 90) 5 "query" 5 60
        "token_set_ratio" = .error cacheInvalidMsg ∧
    (FuzzyMatcher.init 3600).match_batch (constScorerFamily 90) 5 ["query"] 3 60
        "token_set_ratio" = .error cacheInvalidMsg :=
  match_requires_valid_cache (constScorerFamily 90) (FuzzyMatcher.init 3600) 5 "query"
    ["query"] 5 60 "token_set_ratio" (Or.inl rfl)
